import Mathlib

/-!
Verification of the codebase-snapshot scraper (`75.py`).

The program walks a directory tree top-down (`os.walk`), prunes excluded
directory names before descent, skips excluded file names and binary
extensions, reads at most `LINES_TO_COPY` lines per remaining file
(`itertools.islice`), and assembles one markdown document plus
operator-visible console lines.

The embedding works at line granularity: a file's decodable content is a
list of line strings (each line as Python's text iterator would yield it,
newline included), together with a flag saying whether the bytes after
those lines fail to decode as UTF-8, or the file raises an OS error on
open.  Whitespace is modelled at ASCII granularity.
-/

namespace Scraper

/-- Content of a file as seen through Python's text-mode line iterator:
either it yields `lines` in order and then, if `badTail` is true, raises
`UnicodeDecodeError` on the next pull; or opening/reading raises an OS
error carrying message `msg` (the generic `except Exception` path). -/
inductive FileData : Type where
  | readable (lines : List String) (badTail : Bool) : FileData
  | openFails (msg : String) : FileData
deriving DecidableEq

/-- Result of `list(itertools.islice(f, n))` inside the `try` block. -/
inductive ReadResult : Type where
  | ok (lines : List String) : ReadResult
  | decodeError : ReadResult
  | ioError (msg : String) : ReadResult
deriving DecidableEq

/-- `list(itertools.islice(f, n))`: pull at most `n` lines; a decode error
surfaces only if it is hit before `n` lines have been produced. -/
def readFirstLines (n : Nat) : FileData → ReadResult
  | .openFails msg => .ioError msg
  | .readable lines badTail =>
    if n ≤ lines.length then .ok (lines.take n)
    else if badTail then .decodeError
    else .ok lines

/-- `EXCLUDE_DIRS` from the configuration section. -/
def EXCLUDE_DIRS : List String :=
  ["node_modules", ".git", "venv", ".venv", "dist", "build",
   "__pycache__", ".svn", ".hg", "bin", "obj"]

/-- `EXCLUDE_FILES` from the configuration section. -/
def EXCLUDE_FILES : List String :=
  [".DS_Store", "package-lock.json", "yarn.lock", "npm-debug.log", ".env"]

/-- `BINARY_EXTENSIONS` from the configuration section. -/
def BINARY_EXTENSIONS : List String :=
  [".png", ".jpg", ".jpeg", ".gif", ".bmp", ".ico", ".svg", ".webp",
   ".woff", ".woff2", ".ttf", ".eot",
   ".mp4", ".webm", ".ogg", ".mp3", ".wav", ".mov",
   ".zip", ".tar", ".gz", ".rar", ".7z",
   ".pdf", ".doc", ".docx", ".xls", ".xlsx", ".ppt", ".pptx",
   ".exe", ".dll", ".so", ".a", ".o", ".lib", ".class", ".pyc"]

/-- `LINES_TO_COPY = 75`. -/
def LINES_TO_COPY : Nat := 75

/-- `OUTPUT_FILE = 'code_snapshot.md'`. -/
def OUTPUT_FILE : String := "code_snapshot.md"

/-- Helper for `os.path.splitext`: drop the leading dots of a basename
(Python never treats a leading-dot run as starting an extension). -/
def dropLeadingDots : List Char → List Char
  | [] => []
  | c :: rest => if c = '.' then dropLeadingDots rest else c :: rest

/-- Helper for `os.path.splitext`: the characters after the last dot,
or `none` when the list has no dot. -/
def afterLastDot : List Char → Option (List Char)
  | [] => none
  | c :: rest =>
    match afterLastDot rest with
    | some s => some s
    | none => if c = '.' then some rest else none

/-- `os.path.splitext(name)[1]` for a basename (no path separators):
the suffix starting at the last dot, provided some character before that
dot is not itself a dot; otherwise the empty string.  In particular
`splitextExt ".gitignore" = ""` and `splitextExt "a.gitignore" = ".gitignore"`. -/
def splitextExt (name : String) : String :=
  match afterLastDot (dropLeadingDots name.toList) with
  | some s => String.mk ('.' :: s)
  | none => ""

/-- Python `str.lower()` on one character, at ASCII granularity (the
extensions compared against the configuration are ASCII). -/
def charToLower (c : Char) : Char :=
  if 65 ≤ c.toNat ∧ c.toNat ≤ 90 then Char.ofNat (c.toNat + 32) else c

/-- Python `str.lower()`, at ASCII granularity. -/
def pyLower (s : String) : String := String.mk (s.data.map charToLower)

/-- The extension→language mapping inside `get_language_from_ext`. -/
def LANGUAGE_MAP : List (String × String) :=
  [(".py", "python"), (".js", "javascript"), (".ts", "typescript"),
   (".jsx", "jsx"), (".tsx", "tsx"), (".html", "html"), (".css", "css"),
   (".scss", "scss"), (".json", "json"), (".md", "markdown"), (".txt", "text"),
   (".sh", "bash"), (".sql", "sql"), (".java", "java"), (".c", "c"),
   (".cpp", "cpp"), (".go", "go"), (".rs", "rust"), (".php", "php"),
   (".rb", "ruby"), (".yml", "yaml"), (".yaml", "yaml"), (".xml", "xml"),
   (".dockerfile", "dockerfile"), (".gitignore", "bash")]

/-- `get_language_from_ext`: look up the lower-cased extension, defaulting
to the empty hint. -/
def get_language_from_ext (ext : String) : String :=
  (LANGUAGE_MAP.lookup (pyLower ext)).getD ""

/-- Python `str.strip()`'s whitespace test, at ASCII granularity. -/
def pyIsSpace (c : Char) : Bool :=
  c = ' ' || c = '\t' || c = '\n' || c = '\x0d' || c = '\x0b' || c = '\x0c'

/-- Python `content.strip()`: remove leading and trailing whitespace. -/
def pyStrip (s : String) : String :=
  String.mk (((s.toList.dropWhile pyIsSpace).reverse.dropWhile pyIsSpace).reverse)

/-- Python `"".join(lines)`. -/
def concatLines : List String → String
  | [] => ""
  | s :: rest => s ++ concatLines rest

/-- A directory entry for a plain file: its basename and content. -/
structure FsFile where
  name : String
  data : FileData
deriving DecidableEq

mutual

/-- A directory: its immediate files and immediate subdirectories, in the
order the OS lists them (`os.walk` order). -/
inductive FsDir : Type where
  | mk (files : List FsFile) (subdirs : FsSubdirs) : FsDir

/-- The named subdirectories of a directory, in listing order. -/
inductive FsSubdirs : Type where
  | nil : FsSubdirs
  | cons (name : String) (d : FsDir) (rest : FsSubdirs) : FsSubdirs

end

/-- A file yielded by the traversal: the chain of directory names from the
scan root down to the file's directory, plus the file's basename and data. -/
structure Entry where
  dirs : List String
  name : String
  data : FileData
deriving DecidableEq

/-- `os.path.relpath(os.path.join(root, filename), START_DIR)` with the
scan root `'.'`: the directory chain and basename joined by `/`. -/
def entryRel (e : Entry) : String :=
  match e.dirs with
  | [] => e.name
  | _ => String.intercalate "/" e.dirs ++ "/" ++ e.name

/-- `_, ext = os.path.splitext(filename)` for this entry. -/
def entryExt (e : Entry) : String := splitextExt e.name

mutual

/-- `os.walk(START_DIR, topdown=True)` with the in-place pruning
`dirs[:] = [d for d in dirs if d not in EXCLUDE_DIRS]`, flattened to the
sequence of files the per-file loop body runs on: the current directory's
files first (in listing order), then the files of each non-excluded
subdirectory, recursively.  An excluded subdirectory is dropped before
descent, so nothing under it is ever yielded. -/
def walkFrom (dirs : List String) : FsDir → List Entry
  | .mk files subs =>
    files.map (fun f => ⟨dirs, f.name, f.data⟩) ++ walkSubs dirs subs

/-- Walk the subdirectory list, skipping names in `EXCLUDE_DIRS`. -/
def walkSubs (dirs : List String) : FsSubdirs → List Entry
  | .nil => []
  | .cons n d rest =>
    if n ∈ EXCLUDE_DIRS then walkSubs dirs rest
    else walkFrom (dirs ++ [n]) d ++ walkSubs dirs rest

end

mutual

/-- The same traversal with no pruning at all: every file anywhere in the
tree.  Used to speak about files that the real walk must never visit. -/
def allWalkFrom (dirs : List String) : FsDir → List Entry
  | .mk files subs =>
    files.map (fun f => ⟨dirs, f.name, f.data⟩) ++ allWalkSubs dirs subs

/-- Unpruned walk of a subdirectory list. -/
def allWalkSubs (dirs : List String) : FsSubdirs → List Entry
  | .nil => []
  | .cons n d rest => allWalkFrom (dirs ++ [n]) d ++ allWalkSubs dirs rest

end

/-- One per-file section of the snapshot, before rendering: the relative
path put in the heading, the language tag put on the fence, and the
stripped excerpt placed between the fences. -/
structure Block where
  rel : String
  lang : String
  body : String
deriving DecidableEq

/-- One line printed on the operator channel for a skipped file:
`Skipping binary file: {rel}` or `Skipping {rel} (Error: {e})`. -/
inductive ConsoleEvent : Type where
  | skipBinary (rel : String) : ConsoleEvent
  | skipError (rel : String) (msg : String) : ConsoleEvent
deriving DecidableEq

/-- The relative path a console event reports. -/
def eventRel : ConsoleEvent → String
  | .skipBinary rel => rel
  | .skipError rel _ => rel

/-- What the loop body does to one candidate file: whether it reached
`open`, the snapshot block it appended (if any), and the skip line it
printed (if any). -/
structure StepResult where
  opened : Bool
  block : Option Block
  console : Option ConsoleEvent
deriving DecidableEq

/-- The body of the inner `for filename in files` loop: the two exclusion
checks, then `open` + `islice`, then either the empty-file `continue`, the
markdown append (with `file_count += 1`), or one of the two `except`
prints. -/
def processEntry (e : Entry) : StepResult :=
  if e.name ∈ EXCLUDE_FILES then ⟨false, none, none⟩
  else if pyLower (entryExt e) ∈ BINARY_EXTENSIONS then ⟨false, none, none⟩
  else
    match readFirstLines LINES_TO_COPY e.data with
    | .ok [] => ⟨true, none, none⟩
    | .ok lines =>
      ⟨true,
       some ⟨entryRel e, get_language_from_ext (entryExt e),
             pyStrip (concatLines lines)⟩,
       none⟩
    | .decodeError => ⟨true, none, some (.skipBinary (entryRel e))⟩
    | .ioError msg => ⟨true, none, some (.skipError (entryRel e) msg)⟩

/-- The run's mutable state: `file_count`, `snapshot_content` (as blocks),
the skip lines printed so far, and the relative paths of files the run has
opened (for stating the never-opened properties). -/
structure ScrapeState where
  fileCount : Nat
  snapshot : List Block
  console : List ConsoleEvent
  openedRels : List String
deriving DecidableEq

/-- Folding one candidate file into the run state. -/
def scrapeStep (st : ScrapeState) (e : Entry) : ScrapeState :=
  let r := processEntry e
  { fileCount := st.fileCount + (if r.block.isSome then 1 else 0)
    snapshot := st.snapshot ++ r.block.toList
    console := st.console ++ r.console.toList
    openedRels := st.openedRels ++ (if r.opened then [entryRel e] else []) }

/-- The candidate files the run iterates over, in traversal order. -/
def entriesOf (t : FsDir) : List Entry := walkFrom [] t

/-- The whole scraping loop of `scrape_codebase`, before the final write. -/
def scrapeRun (t : FsDir) : ScrapeState :=
  (entriesOf t).foldl scrapeStep ⟨0, [], [], []⟩

/-- The blocks the run accumulates, in closed form. -/
def blocksOf (t : FsDir) : List Block :=
  (entriesOf t).filterMap (fun e => (processEntry e).block)

/-- The skip lines the run prints, in closed form. -/
def consoleOf (t : FsDir) : List ConsoleEvent :=
  (entriesOf t).filterMap (fun e => (processEntry e).console)

/-- The relative paths the run opens, in closed form. -/
def openedOf (t : FsDir) : List String :=
  (entriesOf t).filterMap
    (fun e => if (processEntry e).opened then some (entryRel e) else none)

/-- Rendering one block: exactly the four strings the source appends,
`## {rel}\n`, then ```` ```{lang}\n ````, then `content.strip()`, then
the closing fence and blank line. -/
def blockToString (b : Block) : String :=
  ("## " ++ b.rel ++ "\n") ++ ("```" ++ b.lang ++ "\n") ++ b.body ++ "\n```\n\n"

/-- The document written to `OUTPUT_FILE`: title, count line, separator,
then the joined snapshot content. -/
def scrapeDoc (t : FsDir) : String :=
  "# Codebase Snapshot\n\n"
    ++ ("Scraped **" ++ toString (scrapeRun t).fileCount
        ++ "** files from the repository.\n\n")
    ++ "---\n\n"
    ++ concatLines ((scrapeRun t).snapshot.map blockToString)

/-- The start announcement printed before the walk. -/
def startLine : String :=
  "Starting codebase scrape... (Ignoring: "
    ++ String.intercalate ", " EXCLUDE_DIRS ++ ")"

/-- Rendering a skip event to its printed line. -/
def consoleEventLine : ConsoleEvent → String
  | .skipBinary rel => "Skipping binary file: " ++ rel
  | .skipError rel msg => "Skipping " ++ rel ++ " (Error: " ++ msg ++ ")"

/-- The success summary line; `elapsed` stands for the formatted
`end_time - start_time` figure, the only time-dependent text. -/
def successLine (count : Nat) (elapsed : String) : String :=
  "\n✅ Success! Scraped " ++ toString count ++ " files in "
    ++ elapsed ++ " seconds."

/-- The final `Snapshot saved to:` line. -/
def savedLine : String := "Snapshot saved to: " ++ OUTPUT_FILE

/-- Every line the run prints on the operator channel, in order. -/
def runConsole (t : FsDir) (elapsed : String) : List String :=
  startLine :: (scrapeRun t).console.map consoleEventLine
    ++ [successLine (scrapeRun t).fileCount elapsed, savedLine]

/-- A whole run of `scrape_codebase` on tree `t` with elapsed-time figure
`elapsed`: the document written to `OUTPUT_FILE` and the console lines. -/
def scrape_codebase (t : FsDir) (elapsed : String) : String × List String :=
  (scrapeDoc t, runConsole t elapsed)

/-- The document layout of spec section 6 as amended: the document as a
flat sequence of lines (a blank line is a lone `"\n"`) — a
`# Codebase Snapshot` title line, a blank line, the
`Scraped **<count>** files from the repository.` line, a blank line, a
`---` separator, a blank line; then for each block in arrival order its
`## <relative path>` heading line followed immediately by the fence line
tagged with the language label (no blank line in between), the trimmed
excerpt followed by a newline, the closing fence line, and a blank-line
separator. -/
def amendedLayoutDoc (count : Nat) (blocks : List Block) : String :=
  concatLines
    (["# Codebase Snapshot\n", "\n",
      "Scraped **" ++ toString count ++ "** files from the repository.\n", "\n",
      "---\n", "\n"]
      ++ blocks.flatMap (fun b =>
        ["## " ++ b.rel ++ "\n", "```" ++ b.lang ++ "\n",
         b.body ++ "\n", "```\n", "\n"]))

/-- A sample tree exercising each per-file path: a normal python file, a
file whose bytes stop decoding on the first pull, an empty file, a
whitespace-only file, a bare dotfile, a binary-extension file, an
excluded-by-name file, and a file inside an excluded directory. -/
def sampleTree : FsDir :=
  .mk
    [⟨"a.py", .readable ["line one\n", "line two\n"] false⟩,
     ⟨"bad.dat", .readable ["x\n"] true⟩,
     ⟨"empty.txt", .readable [] false⟩,
     ⟨"ws.txt", .readable ["   \n", "\t\n"] false⟩,
     ⟨".gitignore", .readable ["node_modules\n"] false⟩,
     ⟨"logo.png", .readable ["PNG\n"] false⟩,
     ⟨".env", .readable ["SECRET=1\n"] false⟩]
    (.cons "node_modules" (.mk [⟨"pkg.js", .readable ["j\n"] false⟩] .nil) .nil)

/-- The ordinary included file of `sampleTree`. -/
def e1W : Entry := ⟨[], "a.py", .readable ["line one\n", "line two\n"] false⟩

/-- The undecodable file of `sampleTree`. -/
def e5W : Entry := ⟨[], "bad.dat", .readable ["x\n"] true⟩

/-- The empty file of `sampleTree`. -/
def e6W : Entry := ⟨[], "empty.txt", .readable [] false⟩

/-- The whitespace-only file of `sampleTree`. -/
def e9W : Entry := ⟨[], "ws.txt", .readable ["   \n", "\t\n"] false⟩

/-- The file under the excluded `node_modules` directory of `sampleTree`. -/
def e3W : Entry := ⟨["node_modules"], "pkg.js", .readable ["j\n"] false⟩

/-- A one-file tree for exhibiting the exact document text. -/
def c2Tree : FsDir := .mk [⟨"a.py", .readable ["x\n"] false⟩] .nil

/-- A tree with a file that has 80 decodable lines followed by
undecodable bytes: the cap is reached before the bad bytes. -/
def c8Tree : FsDir :=
  .mk [⟨"big.md", .readable (List.replicate 80 "word\n") true⟩] .nil

/-- The long half-decodable file of `c8Tree`. -/
def e8W : Entry := ⟨[], "big.md", .readable (List.replicate 80 "word\n") true⟩

/-- A tree containing a file literally named `a.gitignore`. -/
def c10Tree : FsDir := .mk [⟨"a.gitignore", .readable ["x\n"] false⟩] .nil

/-! ### Lemmas about the excerpt reader -/

theorem readFirstLines_ok_eq {n : Nat} {lines l : List String} {bt : Bool}
    (h : readFirstLines n (.readable lines bt) = .ok l) : l = lines.take n := by
  simp only [readFirstLines] at h
  split at h
  next hle =>
    injection h with h2
    exact h2.symm
  next hgt =>
    split at h
    next => exact ReadResult.noConfusion h
    next =>
      injection h with h2
      subst h2
      exact (List.take_of_length_le (by omega)).symm

/-! ### Characterizations of the per-file loop body -/

theorem processEntry_eq_of_excludedName {e : Entry} (h : e.name ∈ EXCLUDE_FILES) :
    processEntry e = ⟨false, none, none⟩ := by
  unfold processEntry
  rw [if_pos h]

theorem processEntry_eq_of_binaryExt {e : Entry}
    (hnf : e.name ∉ EXCLUDE_FILES) (h : pyLower (entryExt e) ∈ BINARY_EXTENSIONS) :
    processEntry e = ⟨false, none, none⟩ := by
  unfold processEntry
  rw [if_neg hnf, if_pos h]

theorem processEntry_eq_of_ok {e : Entry} {l : List String}
    (hnf : e.name ∉ EXCLUDE_FILES) (hnb : pyLower (entryExt e) ∉ BINARY_EXTENSIONS)
    (hok : readFirstLines LINES_TO_COPY e.data = .ok l) (hne : l ≠ []) :
    processEntry e =
      ⟨true, some ⟨entryRel e, get_language_from_ext (entryExt e),
                   pyStrip (concatLines l)⟩, none⟩ := by
  unfold processEntry
  rw [if_neg hnf, if_neg hnb, hok]
  cases l with
  | nil => exact absurd rfl hne
  | cons s rest => rfl

theorem processEntry_eq_of_empty {e : Entry}
    (hnf : e.name ∉ EXCLUDE_FILES) (hnb : pyLower (entryExt e) ∉ BINARY_EXTENSIONS)
    (hok : readFirstLines LINES_TO_COPY e.data = .ok []) :
    processEntry e = ⟨true, none, none⟩ := by
  unfold processEntry
  rw [if_neg hnf, if_neg hnb, hok]

theorem processEntry_eq_of_decodeError {e : Entry}
    (hnf : e.name ∉ EXCLUDE_FILES) (hnb : pyLower (entryExt e) ∉ BINARY_EXTENSIONS)
    (hdec : readFirstLines LINES_TO_COPY e.data = .decodeError) :
    processEntry e = ⟨true, none, some (.skipBinary (entryRel e))⟩ := by
  unfold processEntry
  rw [if_neg hnf, if_neg hnb, hdec]

theorem processEntry_eq_of_ioError {e : Entry} {msg : String}
    (hnf : e.name ∉ EXCLUDE_FILES) (hnb : pyLower (entryExt e) ∉ BINARY_EXTENSIONS)
    (hio : readFirstLines LINES_TO_COPY e.data = .ioError msg) :
    processEntry e = ⟨true, none, some (.skipError (entryRel e) msg)⟩ := by
  unfold processEntry
  rw [if_neg hnf, if_neg hnb, hio]

theorem processEntry_opened_true {e : Entry} (h : (processEntry e).opened = true) :
    e.name ∉ EXCLUDE_FILES ∧ pyLower (entryExt e) ∉ BINARY_EXTENSIONS := by
  by_cases hnf : e.name ∈ EXCLUDE_FILES
  · rw [processEntry_eq_of_excludedName hnf] at h
    exact Bool.noConfusion h
  by_cases hnb : pyLower (entryExt e) ∈ BINARY_EXTENSIONS
  · rw [processEntry_eq_of_binaryExt hnf hnb] at h
    exact Bool.noConfusion h
  exact ⟨hnf, hnb⟩

theorem processEntry_block_some {e : Entry} {b : Block}
    (h : (processEntry e).block = some b) :
    e.name ∉ EXCLUDE_FILES ∧ pyLower (entryExt e) ∉ BINARY_EXTENSIONS ∧
    ∃ l, readFirstLines LINES_TO_COPY e.data = .ok l ∧ l ≠ [] ∧
      b = ⟨entryRel e, get_language_from_ext (entryExt e),
           pyStrip (concatLines l)⟩ := by
  by_cases hnf : e.name ∈ EXCLUDE_FILES
  · rw [processEntry_eq_of_excludedName hnf] at h
    exact Option.noConfusion h
  by_cases hnb : pyLower (entryExt e) ∈ BINARY_EXTENSIONS
  · rw [processEntry_eq_of_binaryExt hnf hnb] at h
    exact Option.noConfusion h
  refine ⟨hnf, hnb, ?_⟩
  cases hread : readFirstLines LINES_TO_COPY e.data with
  | ok l =>
    cases l with
    | nil =>
      rw [processEntry_eq_of_empty hnf hnb hread] at h
      exact Option.noConfusion h
    | cons s rest =>
      rw [processEntry_eq_of_ok hnf hnb hread (List.cons_ne_nil s rest)] at h
      injection h with h2
      exact ⟨s :: rest, rfl, List.cons_ne_nil s rest, h2.symm⟩
  | decodeError =>
    rw [processEntry_eq_of_decodeError hnf hnb hread] at h
    exact Option.noConfusion h
  | ioError msg =>
    rw [processEntry_eq_of_ioError hnf hnb hread] at h
    exact Option.noConfusion h

theorem processEntry_console_some {e : Entry} {ev : ConsoleEvent}
    (h : (processEntry e).console = some ev) :
    e.name ∉ EXCLUDE_FILES ∧ pyLower (entryExt e) ∉ BINARY_EXTENSIONS ∧
    eventRel ev = entryRel e := by
  by_cases hnf : e.name ∈ EXCLUDE_FILES
  · rw [processEntry_eq_of_excludedName hnf] at h
    exact Option.noConfusion h
  by_cases hnb : pyLower (entryExt e) ∈ BINARY_EXTENSIONS
  · rw [processEntry_eq_of_binaryExt hnf hnb] at h
    exact Option.noConfusion h
  refine ⟨hnf, hnb, ?_⟩
  cases hread : readFirstLines LINES_TO_COPY e.data with
  | ok l =>
    cases l with
    | nil =>
      rw [processEntry_eq_of_empty hnf hnb hread] at h
      exact Option.noConfusion h
    | cons s rest =>
      rw [processEntry_eq_of_ok hnf hnb hread (List.cons_ne_nil s rest)] at h
      exact Option.noConfusion h
  | decodeError =>
    rw [processEntry_eq_of_decodeError hnf hnb hread] at h
    injection h with h2
    subst h2
    rfl
  | ioError msg =>
    rw [processEntry_eq_of_ioError hnf hnb hread] at h
    injection h with h2
    subst h2
    rfl

/-! ### The run as a fold, in closed form -/

theorem foldl_scrapeStep_eq (l : List Entry) (st : ScrapeState) :
    l.foldl scrapeStep st =
      ⟨st.fileCount + (l.filterMap (fun e => (processEntry e).block)).length,
       st.snapshot ++ l.filterMap (fun e => (processEntry e).block),
       st.console ++ l.filterMap (fun e => (processEntry e).console),
       st.openedRels ++ l.filterMap
         (fun e => if (processEntry e).opened then some (entryRel e) else none)⟩ := by
  induction l generalizing st with
  | nil => simp
  | cons e l ih =>
    rw [List.foldl_cons, ih]
    cases hb : (processEntry e).block <;>
      cases hc : (processEntry e).console <;>
        cases ho : (processEntry e).opened <;>
          simp [scrapeStep, hb, hc, ho, List.filterMap_cons,
                ScrapeState.mk.injEq, List.append_assoc] <;>
            omega

theorem scrapeRun_eq (t : FsDir) :
    scrapeRun t = ⟨(blocksOf t).length, blocksOf t, consoleOf t, openedOf t⟩ := by
  unfold scrapeRun blocksOf consoleOf openedOf
  rw [foldl_scrapeStep_eq]
  simp

/-! ### Counting helpers -/

theorem countP_eq_one_of_unique {α : Type _} {l : List α} {q : α → Bool} {e : α}
    (hl : l.Nodup) (he : e ∈ l) (hq : q e = true)
    (huniq : ∀ a ∈ l, q a = true → a = e) : l.countP q = 1 := by
  induction l with
  | nil => cases he
  | cons a l ih =>
    rw [List.countP_cons]
    rcases List.mem_cons.mp he with rfl | hmem
    · have h0 : l.countP q = 0 := by
        refine List.countP_eq_zero.mpr (fun b hb hqb => ?_)
        have hb2 := huniq b (List.mem_cons_of_mem _ hb) hqb
        subst hb2
        exact (List.nodup_cons.mp hl).1 hb
      rw [h0, if_pos hq]
    · have hane : a ≠ e := by
        intro hae
        subst hae
        exact (List.nodup_cons.mp hl).1 hmem
      have ha : ¬ q a = true := fun hqa =>
        hane (huniq a (List.mem_cons_self a l) hqa)
      rw [if_neg ha, Nat.add_zero]
      exact ih (List.nodup_cons.mp hl).2 hmem
        (fun b hb hqb => huniq b (List.mem_cons_of_mem _ hb) hqb)

theorem rel_inj_of_nodup {l : List Entry}
    (hnd : (l.map entryRel).Nodup) {a b : Entry}
    (ha : a ∈ l) (hb : b ∈ l) (h : entryRel a = entryRel b) : a = b :=
  List.inj_on_of_nodup_map hnd ha hb h

/-! ### Traversal lemmas -/

mutual

theorem walkFrom_dirs_clean (ds : List String) (t : FsDir)
    (hds : ∀ d ∈ ds, d ∉ EXCLUDE_DIRS) :
    ∀ e ∈ walkFrom ds t, ∀ d ∈ e.dirs, d ∉ EXCLUDE_DIRS := by
  cases t with
  | mk files subs =>
    intro e he
    rw [walkFrom] at he
    rcases List.mem_append.mp he with hf | hs
    · rcases List.mem_map.mp hf with ⟨f, _, rfl⟩
      exact hds
    · exact walkSubs_dirs_clean ds subs hds e hs

theorem walkSubs_dirs_clean (ds : List String) (s : FsSubdirs)
    (hds : ∀ d ∈ ds, d ∉ EXCLUDE_DIRS) :
    ∀ e ∈ walkSubs ds s, ∀ d ∈ e.dirs, d ∉ EXCLUDE_DIRS := by
  cases s with
  | nil =>
    intro e he
    rw [walkSubs] at he
    cases he
  | cons n d rest =>
    intro e he
    rw [walkSubs] at he
    split at he
    next hex => exact walkSubs_dirs_clean ds rest hds e he
    next hex =>
      rcases List.mem_append.mp he with h1 | h2
      · refine walkFrom_dirs_clean (ds ++ [n]) d ?_ e h1
        intro x hx
        rcases List.mem_append.mp hx with hx | hx
        · exact hds x hx
        · rw [List.mem_singleton.mp hx]
          exact hex
      · exact walkSubs_dirs_clean ds rest hds e h2

end

mutual

theorem walkFrom_subset_all (ds : List String) (t : FsDir) :
    ∀ e ∈ walkFrom ds t, e ∈ allWalkFrom ds t := by
  cases t with
  | mk files subs =>
    intro e he
    rw [walkFrom] at he
    rw [allWalkFrom]
    rcases List.mem_append.mp he with hf | hs
    · exact List.mem_append.mpr (Or.inl hf)
    · exact List.mem_append.mpr (Or.inr (walkSubs_subset_all ds subs e hs))

theorem walkSubs_subset_all (ds : List String) (s : FsSubdirs) :
    ∀ e ∈ walkSubs ds s, e ∈ allWalkSubs ds s := by
  cases s with
  | nil =>
    intro e he
    rw [walkSubs] at he
    cases he
  | cons n d rest =>
    intro e he
    rw [walkSubs] at he
    rw [allWalkSubs]
    split at he
    next hex =>
      exact List.mem_append.mpr (Or.inr (walkSubs_subset_all ds rest e he))
    next hex =>
      rcases List.mem_append.mp he with h1 | h2
      · exact List.mem_append.mpr (Or.inl (walkFrom_subset_all (ds ++ [n]) d e h1))
      · exact List.mem_append.mpr (Or.inr (walkSubs_subset_all ds rest e h2))

end

/-! ### String lemmas -/

theorem concatLines_append (xs ys : List String) :
    concatLines (xs ++ ys) = concatLines xs ++ concatLines ys := by
  induction xs with
  | nil => simp [concatLines, String.empty_append]
  | cons s rest ih =>
    simp only [List.cons_append, concatLines, String.append_assoc]
    exact congrArg (s ++ ·) ih

theorem concatLines_data_mem {l : List String} {c : Char}
    (hc : c ∈ (concatLines l).data) : ∃ s ∈ l, c ∈ s.data := by
  induction l with
  | nil => exact absurd hc (List.not_mem_nil c)
  | cons s rest ih =>
    rw [concatLines, String.data_append] at hc
    rcases List.mem_append.mp hc with h | h
    · exact ⟨s, List.mem_cons_self s rest, h⟩
    · obtain ⟨s2, hs2, hcs2⟩ := ih h
      exact ⟨s2, List.mem_cons_of_mem _ hs2, hcs2⟩

theorem pyStrip_eq_empty {s : String} (h : ∀ c ∈ s.data, pyIsSpace c = true) :
    pyStrip s = "" := by
  unfold pyStrip
  have h1 : s.toList.dropWhile pyIsSpace = [] := List.dropWhile_eq_nil_iff.mpr h
  rw [h1]
  rfl

theorem pyStrip_concatLines_ws {l : List String}
    (h : ∀ s ∈ l, ∀ c ∈ s.data, pyIsSpace c = true) :
    pyStrip (concatLines l) = "" := by
  refine pyStrip_eq_empty (fun c hc => ?_)
  obtain ⟨s, hs, hcs⟩ := concatLines_data_mem hc
  exact h s hs c hcs

/-- Merging two adjacent literal chunks in front of a tail. -/
theorem lit_merge (a b c : String) (h : a ++ b = c) (X : String) :
    a ++ (b ++ X) = c ++ X := by
  rw [← String.append_assoc, h]

theorem headerLines_eq (c : Nat) :
    concatLines ["# Codebase Snapshot\n", "\n",
      "Scraped **" ++ toString c ++ "** files from the repository.\n", "\n",
      "---\n", "\n"] =
    "# Codebase Snapshot\n\n"
      ++ ("Scraped **" ++ toString c ++ "** files from the repository.\n\n")
      ++ "---\n\n" := by
  simp only [concatLines, String.append_empty]
  rw [lit_merge "# Codebase Snapshot\n" "\n" "# Codebase Snapshot\n\n" (by decide)]
  rw [String.append_assoc ("Scraped **" ++ toString c)
        "** files from the repository.\n" _]
  rw [lit_merge "** files from the repository.\n" "\n"
        "** files from the repository.\n\n" (by decide)]
  rw [show ("---\n" ++ "\n" : String) = "---\n\n" from by decide]
  simp only [String.append_assoc]

theorem blockLines_eq (b : Block) :
    concatLines ["## " ++ b.rel ++ "\n", "```" ++ b.lang ++ "\n",
                 b.body ++ "\n", "```\n", "\n"] = blockToString b := by
  simp only [concatLines, String.append_empty, blockToString]
  rw [show ("```\n" ++ "\n" : String) = "```\n\n" from by decide]
  rw [String.append_assoc b.body "\n" "```\n\n"]
  rw [show ("\n" ++ "```\n\n" : String) = "\n```\n\n" from by decide]
  simp only [String.append_assoc]

theorem concatLines_blockLines (bs : List Block) :
    concatLines (bs.flatMap (fun b =>
      ["## " ++ b.rel ++ "\n", "```" ++ b.lang ++ "\n",
       b.body ++ "\n", "```\n", "\n"])) =
    concatLines (bs.map blockToString) := by
  induction bs with
  | nil => rfl
  | cons b bs ih =>
    rw [List.flatMap_cons, List.map_cons, concatLines_append, ih, blockLines_eq]
    rfl

/-! ### Lemmas about `splitext` on dotfiles -/

theorem dropLeadingDots_no_dot {cs : List Char} (h : '.' ∉ cs) :
    dropLeadingDots cs = cs := by
  cases cs with
  | nil => rfl
  | cons c r =>
    rw [dropLeadingDots, if_neg]
    exact fun hc => h (List.mem_cons.mpr (Or.inl hc.symm))

theorem afterLastDot_eq_none {cs : List Char} (h : '.' ∉ cs) :
    afterLastDot cs = none := by
  induction cs with
  | nil => rfl
  | cons c r ih =>
    have hr : '.' ∉ r := fun hm => h (List.mem_cons_of_mem _ hm)
    rw [afterLastDot, ih hr]
    show (if c = '.' then some r else none) = none
    rw [if_neg (fun hc => h (List.mem_cons.mpr (Or.inl hc.symm)))]

theorem splitextExt_dotfile {name : String} {cs : List Char}
    (hname : name.data = '.' :: cs) (hnodot : '.' ∉ cs) :
    splitextExt name = "" := by
  unfold splitextExt
  rw [show name.toList = name.data from rfl, hname]
  rw [dropLeadingDots, if_pos rfl]
  rw [dropLeadingDots_no_dot hnodot, afterLastDot_eq_none hnodot]

/-! ## Claim theorems -/

/-- C2 (counterexample): the claim asserts a blank line between each
`## <relative path>` heading and its code fence, as drawn in spec
section 6.  The source appends `"## {rel}\n"` directly followed by the
fence line, so the document for a one-file tree has `## a.py` immediately
followed by the fence, not the claimed blank-line-separated form. -/
theorem c2_counterexample :
    scrapeDoc c2Tree =
      "# Codebase Snapshot\n\nScraped **1** files from the repository.\n\n---\n\n## a.py\n```python\nx\n```\n\n" ∧
    scrapeDoc c2Tree ≠
      "# Codebase Snapshot\n\nScraped **1** files from the repository.\n\n---\n\n## a.py\n\n```python\nx\n```\n\n" :=
  ⟨by decide, by decide⟩

/-- C2 (amended): the output document has exactly the textual layout of
spec section 6 with one change: each `## <relative path>` heading line is
followed immediately by the tagged (possibly untagged) code fence line —
there is no blank line between heading and fence.  Everything else stands:
title line, blank line, `Scraped **<count>** files from the repository.`
line, blank line, `---`, blank line, then for each included file in
arrival order the heading, the fence, the trimmed excerpt, the closing
fence, and a blank-line separator. -/
theorem c2_document_layout (t : FsDir) :
    scrapeDoc t = amendedLayoutDoc (scrapeRun t).fileCount (scrapeRun t).snapshot := by
  unfold amendedLayoutDoc
  rw [concatLines_append, headerLines_eq, concatLines_blockLines]
  unfold scrapeDoc
  simp only [String.append_assoc]

/-- C4: in every produced output document, the count printed in the
`Scraped **<count>** files from the repository.` header line equals the
number of `## ` file subsections rendered in the document body. -/
theorem c4_header_count_matches_sections (t : FsDir) :
    (scrapeRun t).fileCount = ((scrapeRun t).snapshot.map blockToString).length := by
  rw [scrapeRun_eq]
  simp

/-- C7: two runs over an identical tree with the same configuration and
traversal order produce byte-identical output documents; on the operator
channel every line agrees except that the success summary line carries
each run's own elapsed-time figure. -/
theorem c7_deterministic_output (t : FsDir) (e1 e2 : String) :
    (scrape_codebase t e1).1 = (scrape_codebase t e2).1 ∧
    (scrape_codebase t e1).2 =
      startLine :: (scrapeRun t).console.map consoleEventLine
        ++ [successLine (scrapeRun t).fileCount e1, savedLine] ∧
    (scrape_codebase t e2).2 =
      startLine :: (scrapeRun t).console.map consoleEventLine
        ++ [successLine (scrapeRun t).fileCount e2, savedLine] :=
  ⟨rfl, rfl, rfl⟩

/-- C10 (counterexample): the pipeline does return the `.gitignore` map
entry.  For a file literally named `a.gitignore`, `os.path.splitext`
yields extension `.gitignore`, so the emitted fence is tagged `bash`;
hence "those two map entries are never returned by
`get_language_from_ext` as invoked by the pipeline" is false. -/
theorem c10_counterexample :
    blocksOf c10Tree = [⟨"a.gitignore", "bash", "x"⟩] ∧
    get_language_from_ext (splitextExt "a.gitignore") = "bash" ∧
    ("bash" : String) ≠ "" :=
  ⟨by decide, by decide, by decide⟩

/-- C10 (amended): for every file name consisting of a single leading dot
and no other dot, the computed extension is the empty string, its language
label is empty, and any block the pipeline produces for an entry with such
a name has an untagged fence.  (The `.gitignore` and `.dockerfile` map
entries are unreachable for such bare dotfile names, though they are
returned for names like `a.gitignore`.) -/
theorem c10_dotfile_fence_untagged (name : String) (cs : List Char)
    (hname : name.data = '.' :: cs) (hnodot : '.' ∉ cs) :
    splitextExt name = "" ∧
    get_language_from_ext (splitextExt name) = "" ∧
    ∀ (e : Entry) (b : Block), e.name = name →
      (processEntry e).block = some b → b.lang = "" := by
  have hext := splitextExt_dotfile hname hnodot
  have hlang : get_language_from_ext (splitextExt name) = "" := by
    rw [hext]
    decide
  refine ⟨hext, hlang, ?_⟩
  intro e b hen hb
  obtain ⟨-, -, lb, hlb, hlbne, hbeq⟩ := processEntry_block_some hb
  rw [hbeq]
  show get_language_from_ext (entryExt e) = ""
  unfold entryExt
  rw [hen, splitextExt_dotfile hname hnodot]
  decide

/-- C10 (witness): the amended theorem applied to the dotfile name
`.gitignore`. -/
theorem c10_witness :
    ((".gitignore" : String).data = '.' :: ("gitignore" : String).data ∧
      '.' ∉ ("gitignore" : String).data) ∧
    (splitextExt ".gitignore" = "" ∧
      get_language_from_ext (splitextExt ".gitignore") = "" ∧
      ∀ (e : Entry) (b : Block), e.name = ".gitignore" →
        (processEntry e).block = some b → b.lang = "") :=
  ⟨⟨by decide, by decide⟩,
   c10_dotfile_fence_untagged ".gitignore" ("gitignore" : String).data
     (by decide) (by decide)⟩

/-- C1: every file reached by the pruned traversal that passes the
file-name and binary-extension filters and whose content decodes with at
least one line read appears exactly once as a subsection (by relative
path), its fenced content is the concatenation of its first
`min(75, total_lines)` lines stripped of leading and trailing whitespace,
and no more than 75 lines are ever read from it. -/
theorem c1_included_file_section (t : FsDir)
    (hnd : ((entriesOf t).map entryRel).Nodup)
    (e : Entry) (he : e ∈ entriesOf t)
    (hnf : e.name ∉ EXCLUDE_FILES)
    (hnb : pyLower (entryExt e) ∉ BINARY_EXTENSIONS)
    (lines : List String) (badTail : Bool)
    (hdata : e.data = .readable lines badTail)
    (l : List String)
    (hok : readFirstLines LINES_TO_COPY e.data = .ok l)
    (hne : l ≠ []) :
    (blocksOf t).countP (fun b => b.rel == entryRel e) = 1 ∧
    (∀ b ∈ blocksOf t, b.rel = entryRel e →
        b.body = pyStrip (concatLines (lines.take LINES_TO_COPY)) ∧
        b.lang = get_language_from_ext (entryExt e)) ∧
    l = lines.take LINES_TO_COPY ∧
    l.length = min LINES_TO_COPY lines.length ∧
    l.length ≤ LINES_TO_COPY := by
  have hl : l = lines.take LINES_TO_COPY := by
    rw [hdata] at hok
    exact readFirstLines_ok_eq hok
  have hpe := processEntry_eq_of_ok hnf hnb hok hne
  have hblockE : (processEntry e).block =
      some ⟨entryRel e, get_language_from_ext (entryExt e),
            pyStrip (concatLines l)⟩ := by
    rw [hpe]
  refine ⟨?_, ?_, hl, ?_, ?_⟩
  · unfold blocksOf
    rw [List.countP_filterMap]
    refine countP_eq_one_of_unique (List.Nodup.of_map entryRel hnd) he ?_ ?_
    · rw [hblockE]
      simp
    · intro a ha hq
      cases hba : (processEntry a).block with
      | none =>
        rw [hba] at hq
        simp at hq
      | some b =>
        rw [hba] at hq
        simp at hq
        obtain ⟨-, -, lb, hlb, hlbne, hbeq⟩ := processEntry_block_some hba
        rw [hbeq] at hq
        exact rel_inj_of_nodup hnd ha he hq
  · intro b hb hbrel
    obtain ⟨a, ha, hba⟩ := List.mem_filterMap.mp hb
    obtain ⟨-, -, lb, hlb, hlbne, hbeq⟩ := processEntry_block_some hba
    have hrelab : entryRel a = entryRel e := by
      rw [hbeq] at hbrel
      exact hbrel
    have hae : a = e := rel_inj_of_nodup hnd ha he hrelab
    subst hae
    rw [hblockE] at hba
    injection hba with hb2
    refine ⟨?_, ?_⟩
    · rw [← hb2]
      show pyStrip (concatLines l) = pyStrip (concatLines (lines.take LINES_TO_COPY))
      rw [hl]
    · rw [← hb2]
  · rw [hl, List.length_take]
  · rw [hl, List.length_take]
    exact inf_le_left

/-- C1 (witness): instantiating the theorem at `a.py` in `sampleTree`. -/
theorem c1_witness :
    (((entriesOf sampleTree).map entryRel).Nodup ∧
      e1W ∈ entriesOf sampleTree ∧
      e1W.name ∉ EXCLUDE_FILES ∧
      pyLower (entryExt e1W) ∉ BINARY_EXTENSIONS ∧
      e1W.data = .readable ["line one\n", "line two\n"] false ∧
      readFirstLines LINES_TO_COPY e1W.data = .ok ["line one\n", "line two\n"] ∧
      (["line one\n", "line two\n"] : List String) ≠ []) ∧
    ((blocksOf sampleTree).countP (fun b => b.rel == entryRel e1W) = 1 ∧
      (∀ b ∈ blocksOf sampleTree, b.rel = entryRel e1W →
        b.body = pyStrip (concatLines
          ((["line one\n", "line two\n"] : List String).take LINES_TO_COPY)) ∧
        b.lang = get_language_from_ext (entryExt e1W)) ∧
      (["line one\n", "line two\n"] : List String) =
        (["line one\n", "line two\n"] : List String).take LINES_TO_COPY ∧
      (["line one\n", "line two\n"] : List String).length =
        min LINES_TO_COPY (["line one\n", "line two\n"] : List String).length ∧
      (["line one\n", "line two\n"] : List String).length ≤ LINES_TO_COPY) :=
  ⟨⟨by decide, by decide, by decide, by decide, by decide, by decide, by decide⟩,
   c1_included_file_section sampleTree (by decide) e1W (by decide) (by decide)
     (by decide) ["line one\n", "line two\n"] false (by decide)
     ["line one\n", "line two\n"] (by decide) (by decide)⟩

/-- C3: a file whose name is excluded, whose lower-cased extension is a
binary extension, or which lies under an excluded directory is never
opened, never appears as a section of the document, and never appears in
any operator-visible skip report; excluded directories are pruned before
descent, so entries under them are never even yielded by the walk. -/
theorem c3_excluded_never_visible (t : FsDir)
    (hnd : ((allWalkFrom [] t).map entryRel).Nodup)
    (e : Entry) (he : e ∈ allWalkFrom [] t)
    (hbad : e.name ∈ EXCLUDE_FILES ∨ pyLower (entryExt e) ∈ BINARY_EXTENSIONS ∨
            ∃ d ∈ e.dirs, d ∈ EXCLUDE_DIRS) :
    entryRel e ∉ openedOf t ∧
    (∀ b ∈ blocksOf t, b.rel ≠ entryRel e) ∧
    (∀ ev ∈ consoleOf t, eventRel ev ≠ entryRel e) := by
  have key : ∀ a ∈ entriesOf t, a.name ∉ EXCLUDE_FILES →
      pyLower (entryExt a) ∉ BINARY_EXTENSIONS → entryRel a ≠ entryRel e := by
    intro a ha hnf hnb hrel
    have haAll : a ∈ allWalkFrom [] t := walkFrom_subset_all [] t a ha
    have hclean : ∀ d ∈ a.dirs, d ∉ EXCLUDE_DIRS :=
      walkFrom_dirs_clean [] t (by intro d hd; cases hd) a ha
    have hae : a = e := rel_inj_of_nodup hnd haAll he hrel
    subst hae
    rcases hbad with h | h | ⟨d, hd, hdx⟩
    · exact hnf h
    · exact hnb h
    · exact hclean d hd hdx
  refine ⟨?_, ?_, ?_⟩
  · intro hmem
    obtain ⟨a, ha, hsome⟩ := List.mem_filterMap.mp hmem
    by_cases hop : (processEntry a).opened = true
    · rw [if_pos hop] at hsome
      injection hsome with h2
      obtain ⟨hnf, hnb⟩ := processEntry_opened_true hop
      exact key a ha hnf hnb h2
    · rw [if_neg hop] at hsome
      exact Option.noConfusion hsome
  · intro b hb hbrel
    obtain ⟨a, ha, hba⟩ := List.mem_filterMap.mp hb
    obtain ⟨hnf, hnb, lb, hlb, hlbne, hbeq⟩ := processEntry_block_some hba
    refine key a ha hnf hnb ?_
    rw [hbeq] at hbrel
    exact hbrel
  · intro ev hev hevrel
    obtain ⟨a, ha, hca⟩ := List.mem_filterMap.mp hev
    obtain ⟨hnf, hnb, hrel⟩ := processEntry_console_some hca
    rw [hrel] at hevrel
    exact key a ha hnf hnb hevrel

/-- C3 (witness): the theorem applied to the `node_modules/pkg.js` entry
of `sampleTree`, which lies under the excluded `node_modules` directory. -/
theorem c3_witness :
    (((allWalkFrom [] sampleTree).map entryRel).Nodup ∧
      e3W ∈ allWalkFrom [] sampleTree ∧
      (e3W.name ∈ EXCLUDE_FILES ∨ pyLower (entryExt e3W) ∈ BINARY_EXTENSIONS ∨
        ∃ d ∈ e3W.dirs, d ∈ EXCLUDE_DIRS)) ∧
    (entryRel e3W ∉ openedOf sampleTree ∧
      (∀ b ∈ blocksOf sampleTree, b.rel ≠ entryRel e3W) ∧
      (∀ ev ∈ consoleOf sampleTree, eventRel ev ≠ entryRel e3W)) :=
  ⟨⟨by decide, by decide, by decide⟩,
   c3_excluded_never_visible sampleTree (by decide) e3W (by decide) (by decide)⟩

/-- C5: a file that passes both filters and hits a decode error while its
first 75 lines are being read produces exactly one skip line carrying its
relative path (the `Skipping binary file:` report), contributes no
section, and the run still processes every other file's block. -/
theorem c5_decode_skip_reported (t : FsDir)
    (hnd : ((entriesOf t).map entryRel).Nodup)
    (e : Entry) (he : e ∈ entriesOf t)
    (hnf : e.name ∉ EXCLUDE_FILES)
    (hnb : pyLower (entryExt e) ∉ BINARY_EXTENSIONS)
    (hdec : readFirstLines LINES_TO_COPY e.data = .decodeError) :
    (consoleOf t).countP (fun ev => eventRel ev == entryRel e) = 1 ∧
    ConsoleEvent.skipBinary (entryRel e) ∈ consoleOf t ∧
    (∀ b ∈ blocksOf t, b.rel ≠ entryRel e) ∧
    (∀ a ∈ entriesOf t, ∀ b, (processEntry a).block = some b → b ∈ blocksOf t) := by
  have hpe := processEntry_eq_of_decodeError hnf hnb hdec
  refine ⟨?_, ?_, ?_, ?_⟩
  · unfold consoleOf
    rw [List.countP_filterMap]
    refine countP_eq_one_of_unique (List.Nodup.of_map entryRel hnd) he ?_ ?_
    · rw [hpe]
      simp [eventRel]
    · intro a ha hq
      cases hca : (processEntry a).console with
      | none =>
        rw [hca] at hq
        simp at hq
      | some ev =>
        rw [hca] at hq
        simp at hq
        obtain ⟨-, -, hrel⟩ := processEntry_console_some hca
        rw [hrel] at hq
        exact rel_inj_of_nodup hnd ha he hq
  · refine List.mem_filterMap.mpr ⟨e, he, ?_⟩
    rw [hpe]
  · intro b hb hbrel
    obtain ⟨a, ha, hba⟩ := List.mem_filterMap.mp hb
    obtain ⟨-, -, lb, hlb, hlbne, hbeq⟩ := processEntry_block_some hba
    have hrelab : entryRel a = entryRel e := by
      rw [hbeq] at hbrel
      exact hbrel
    have hae : a = e := rel_inj_of_nodup hnd ha he hrelab
    subst hae
    rw [hpe] at hba
    exact Option.noConfusion hba
  · intro a ha b hba
    exact List.mem_filterMap.mpr ⟨a, ha, hba⟩

/-- C5 (witness): the theorem applied to `bad.dat` in `sampleTree`, whose
bytes stop decoding before one line is produced. -/
theorem c5_witness :
    (((entriesOf sampleTree).map entryRel).Nodup ∧
      e5W ∈ entriesOf sampleTree ∧
      e5W.name ∉ EXCLUDE_FILES ∧
      pyLower (entryExt e5W) ∉ BINARY_EXTENSIONS ∧
      readFirstLines LINES_TO_COPY e5W.data = .decodeError) ∧
    ((consoleOf sampleTree).countP (fun ev => eventRel ev == entryRel e5W) = 1 ∧
      ConsoleEvent.skipBinary (entryRel e5W) ∈ consoleOf sampleTree ∧
      (∀ b ∈ blocksOf sampleTree, b.rel ≠ entryRel e5W) ∧
      (∀ a ∈ entriesOf sampleTree, ∀ b,
        (processEntry a).block = some b → b ∈ blocksOf sampleTree)) :=
  ⟨⟨by decide, by decide, by decide, by decide, by decide⟩,
   c5_decode_skip_reported sampleTree (by decide) e5W (by decide) (by decide)
     (by decide) (by decide)⟩

/-- C6: an accepted file from which zero lines are read contributes no
section, is not counted in the reported total (the reported count equals
the number of blocks, none of which carries its path), and produces no
operator-visible report. -/
theorem c6_empty_file_silent (t : FsDir)
    (hnd : ((entriesOf t).map entryRel).Nodup)
    (e : Entry) (he : e ∈ entriesOf t)
    (hnf : e.name ∉ EXCLUDE_FILES)
    (hnb : pyLower (entryExt e) ∉ BINARY_EXTENSIONS)
    (hok : readFirstLines LINES_TO_COPY e.data = .ok []) :
    (processEntry e).block = none ∧
    (processEntry e).console = none ∧
    (scrapeRun t).fileCount = (blocksOf t).length ∧
    (∀ b ∈ blocksOf t, b.rel ≠ entryRel e) ∧
    (∀ ev ∈ consoleOf t, eventRel ev ≠ entryRel e) := by
  have hpe := processEntry_eq_of_empty hnf hnb hok
  refine ⟨by rw [hpe], by rw [hpe], by rw [scrapeRun_eq], ?_, ?_⟩
  · intro b hb hbrel
    obtain ⟨a, ha, hba⟩ := List.mem_filterMap.mp hb
    obtain ⟨-, -, lb, hlb, hlbne, hbeq⟩ := processEntry_block_some hba
    have hrelab : entryRel a = entryRel e := by
      rw [hbeq] at hbrel
      exact hbrel
    have hae : a = e := rel_inj_of_nodup hnd ha he hrelab
    subst hae
    rw [hpe] at hba
    exact Option.noConfusion hba
  · intro ev hev hevrel
    obtain ⟨a, ha, hca⟩ := List.mem_filterMap.mp hev
    obtain ⟨-, -, hrel⟩ := processEntry_console_some hca
    rw [hrel] at hevrel
    have hae : a = e := rel_inj_of_nodup hnd ha he hevrel
    subst hae
    rw [hpe] at hca
    exact Option.noConfusion hca

/-- C6 (witness): the theorem applied to `empty.txt` in `sampleTree`. -/
theorem c6_witness :
    (((entriesOf sampleTree).map entryRel).Nodup ∧
      e6W ∈ entriesOf sampleTree ∧
      e6W.name ∉ EXCLUDE_FILES ∧
      pyLower (entryExt e6W) ∉ BINARY_EXTENSIONS ∧
      readFirstLines LINES_TO_COPY e6W.data = .ok []) ∧
    ((processEntry e6W).block = none ∧
      (processEntry e6W).console = none ∧
      (scrapeRun sampleTree).fileCount = (blocksOf sampleTree).length ∧
      (∀ b ∈ blocksOf sampleTree, b.rel ≠ entryRel e6W) ∧
      (∀ ev ∈ consoleOf sampleTree, eventRel ev ≠ entryRel e6W)) :=
  ⟨⟨by decide, by decide, by decide, by decide, by decide⟩,
   c6_empty_file_silent sampleTree (by decide) e6W (by decide) (by decide)
     (by decide) (by decide)⟩

/-- C8: a decode failure causes a skip only if it is raised while the
first 75 lines are being produced: an accepted file with at least 75
decodable lines followed by undecodable bytes is read successfully (the
read stops at the cap), is included in the report with those 75 lines,
and produces no skip report. -/
theorem c8_cap_reached_before_bad_bytes (t : FsDir)
    (e : Entry) (he : e ∈ entriesOf t)
    (hnf : e.name ∉ EXCLUDE_FILES)
    (hnb : pyLower (entryExt e) ∉ BINARY_EXTENSIONS)
    (lines : List String)
    (hdata : e.data = .readable lines true)
    (hlong : LINES_TO_COPY ≤ lines.length) :
    readFirstLines LINES_TO_COPY e.data = .ok (lines.take LINES_TO_COPY) ∧
    (processEntry e).block =
      some ⟨entryRel e, get_language_from_ext (entryExt e),
            pyStrip (concatLines (lines.take LINES_TO_COPY))⟩ ∧
    (⟨entryRel e, get_language_from_ext (entryExt e),
      pyStrip (concatLines (lines.take LINES_TO_COPY))⟩ : Block) ∈ blocksOf t ∧
    (processEntry e).console = none := by
  have hok : readFirstLines LINES_TO_COPY e.data = .ok (lines.take LINES_TO_COPY) := by
    rw [hdata]
    simp only [readFirstLines]
    rw [if_pos hlong]
  have hne : lines.take LINES_TO_COPY ≠ [] := by
    refine List.ne_nil_of_length_pos ?_
    rw [List.length_take, lt_inf_iff]
    exact ⟨by decide, lt_of_lt_of_le (by decide) hlong⟩
  have hpe := processEntry_eq_of_ok hnf hnb hok hne
  exact ⟨hok, by rw [hpe], List.mem_filterMap.mpr ⟨e, he, by rw [hpe]⟩, by rw [hpe]⟩

/-- C8 (witness): the theorem applied to `big.md` in `c8Tree`, which has
80 decodable lines and then undecodable bytes. -/
theorem c8_witness :
    (e8W ∈ entriesOf c8Tree ∧
      e8W.name ∉ EXCLUDE_FILES ∧
      pyLower (entryExt e8W) ∉ BINARY_EXTENSIONS ∧
      e8W.data = .readable (List.replicate 80 "word\n") true ∧
      LINES_TO_COPY ≤ (List.replicate 80 ("word\n" : String)).length) ∧
    (readFirstLines LINES_TO_COPY e8W.data =
        .ok ((List.replicate 80 ("word\n" : String)).take LINES_TO_COPY) ∧
      (processEntry e8W).block =
        some ⟨entryRel e8W, get_language_from_ext (entryExt e8W),
              pyStrip (concatLines
                ((List.replicate 80 ("word\n" : String)).take LINES_TO_COPY))⟩ ∧
      (⟨entryRel e8W, get_language_from_ext (entryExt e8W),
        pyStrip (concatLines
          ((List.replicate 80 ("word\n" : String)).take LINES_TO_COPY))⟩ : Block)
        ∈ blocksOf c8Tree ∧
      (processEntry e8W).console = none) :=
  ⟨⟨by decide, by decide, by decide, by decide, by decide⟩,
   c8_cap_reached_before_bad_bytes c8Tree e8W (by decide) (by decide) (by decide)
     (List.replicate 80 "word\n") (by decide) (by decide)⟩

/-- C9: a non-empty accepted file whose first `min(75, total)` lines are
all whitespace is included and counted — its section's fenced content is
the empty string — rather than being treated as an empty file. -/
theorem c9_whitespace_only_included (t : FsDir)
    (e : Entry) (he : e ∈ entriesOf t)
    (hnf : e.name ∉ EXCLUDE_FILES)
    (hnb : pyLower (entryExt e) ∉ BINARY_EXTENSIONS)
    (l : List String)
    (hok : readFirstLines LINES_TO_COPY e.data = .ok l)
    (hne : l ≠ [])
    (hws : ∀ s ∈ l, ∀ c ∈ s.data, pyIsSpace c = true) :
    (processEntry e).block =
      some ⟨entryRel e, get_language_from_ext (entryExt e), ""⟩ ∧
    (⟨entryRel e, get_language_from_ext (entryExt e), ""⟩ : Block) ∈ blocksOf t ∧
    (scrapeRun t).fileCount = (blocksOf t).length ∧
    (processEntry e).console = none := by
  have hstrip : pyStrip (concatLines l) = "" := pyStrip_concatLines_ws hws
  have hpe := processEntry_eq_of_ok hnf hnb hok hne
  rw [hstrip] at hpe
  exact ⟨by rw [hpe], List.mem_filterMap.mpr ⟨e, he, by rw [hpe]⟩,
         by rw [scrapeRun_eq], by rw [hpe]⟩

/-- C9 (witness): the theorem applied to the whitespace-only `ws.txt` in
`sampleTree`. -/
theorem c9_witness :
    (e9W ∈ entriesOf sampleTree ∧
      e9W.name ∉ EXCLUDE_FILES ∧
      pyLower (entryExt e9W) ∉ BINARY_EXTENSIONS ∧
      readFirstLines LINES_TO_COPY e9W.data = .ok ["   \n", "\t\n"] ∧
      (["   \n", "\t\n"] : List String) ≠ [] ∧
      (∀ s ∈ (["   \n", "\t\n"] : List String), ∀ c ∈ s.data, pyIsSpace c = true)) ∧
    ((processEntry e9W).block =
        some ⟨entryRel e9W, get_language_from_ext (entryExt e9W), ""⟩ ∧
      (⟨entryRel e9W, get_language_from_ext (entryExt e9W), ""⟩ : Block)
        ∈ blocksOf sampleTree ∧
      (scrapeRun sampleTree).fileCount = (blocksOf sampleTree).length ∧
      (processEntry e9W).console = none) :=
  ⟨⟨by decide, by decide, by decide, by decide, by decide, by decide⟩,
   c9_whitespace_only_included sampleTree e9W (by decide) (by decide) (by decide)
     ["   \n", "\t\n"] (by decide) (by decide) (by decide)⟩

end Scraper
